import Mathlib

/-!
Verification of the resumable media-processing worker
(`src/queue/mediaQueue.js`, `src/processors/videoProcessor.js`,
`src/utils/progressTracker.js`, and the FFmpeg driver).

The JavaScript source is shallowly embedded: JS numbers become `ℚ`
(all quantities involved are exactly representable), JS `null` becomes
`Option`, thrown exceptions become `Except`/an error flag, Redis and the
local filesystem become explicit state records threaded through the
executor, and outbound effects (HTTP posts, subprocess invocations,
filesystem mutations) are recorded in an event trace.
-/

namespace CreatorWorker

/-- JS `Math.round`: round half toward positive infinity. -/
def jsRound (q : ℚ) : ℤ := ⌊q + 1/2⌋

/-- JS string truthiness applied by `x || null`: an empty string maps to `null`. -/
def jsStrOrNull (s : String) : Option String :=
  if s = "" then none else some s

/-- JS `filename.split('.')[0]`. -/
def stemOf (s : String) : String :=
  (s.splitOn ".").headD ""

/-- Character-list starts-with check. -/
def charsHavePre : List Char → List Char → Bool
  | _, [] => true
  | [], _ :: _ => false
  | c :: cs, p :: ps => (c = p) && charsHavePre cs ps

/-- Character-list substring search. -/
def charsInclude : List Char → List Char → Bool
  | s, pat =>
    charsHavePre s pat ||
      (match s with
       | [] => false
       | _ :: cs => charsInclude cs pat)

/-- Substring containment, modelling JS `String.prototype.includes`. -/
def strIncludes (s pat : String) : Bool :=
  charsInclude s.data pat.data

/- ## Rendition ladder (`src/processors/videoProcessor.js`, RENDITIONS) -/

structure Rendition where
  height : ℤ
  name : String
  videoBitrate : String
  maxrate : String
  bufsize : String
  audioBitrate : String
deriving DecidableEq, Inhabited, Repr

def RENDITIONS : List Rendition :=
  [ { height := 480, name := "480p", videoBitrate := "800k", maxrate := "856k",
      bufsize := "1200k", audioBitrate := "96k" },
    { height := 720, name := "720p", videoBitrate := "2800k", maxrate := "2996k",
      bufsize := "4200k", audioBitrate := "128k" },
    { height := 1080, name := "1080p", videoBitrate := "5000k", maxrate := "5350k",
      bufsize := "7500k", audioBitrate := "192k" },
    { height := 2160, name := "2160p", videoBitrate := "15000k", maxrate := "16050k",
      bufsize := "22500k", audioBitrate := "320k" } ]

/-- Rendition selection in `processVideo`:
`RENDITIONS.filter(r => r.height <= height)`, falling back to
`RENDITIONS[0]` when the filter is empty. -/
def selectRenditions (height : ℤ) : List Rendition :=
  let target := RENDITIONS.filter (fun r => r.height ≤ height)
  if target.isEmpty then [RENDITIONS[0]!] else target

/- ## Master playlist synthesis (`createMasterPlaylist` in the FFmpeg service) -/

/-- JS `s.replace(/k$/i, "")`: strip one trailing `k` or `K`. -/
def stripTrailingK (s : String) : String :=
  match s.data.reverse with
  | c :: rest => if c = 'k' ∨ c = 'K' then ⟨rest.reverse⟩ else s
  | [] => s

/-- JS `parseInt` on the stripped bitrate strings: the leading digit run,
`none` standing for `NaN` when there is no leading digit. -/
def parseIntLeading (s : String) : Option ℕ :=
  let ds := s.data.takeWhile Char.isDigit
  if ds.isEmpty then none
  else some (ds.foldl (fun acc c => acc * 10 + (c.toNat - 48)) 0)

/-- Bandwidth computed for one `#EXT-X-STREAM-INF` line:
`parseInt(videoBitrate.replace(/k$/i,"")) * 1000 + parseInt(audioBitrate.replace(/k$/i,"")) * 1000`.
`none` models the `NaN` outcome. -/
def renditionBandwidth (r : Rendition) : Option ℕ := do
  let v ← parseIntLeading (stripTrailingK r.videoBitrate)
  let a ← parseIntLeading (stripTrailingK r.audioBitrate)
  pure (v * 1000 + a * 1000)

/-- Width of one `#EXT-X-STREAM-INF` line: `Math.round((height * 16) / 9)`. -/
def renditionWidth (r : Rendition) : ℤ :=
  jsRound ((r.height * 16 : ℚ) / 9)

structure MasterEntry where
  bandwidth : Option ℕ
  width : ℤ
  height : ℤ
  name : String
  uri : String
deriving DecidableEq, Repr

/-- One entry of the master playlist, as built per rendition by
`createMasterPlaylist`. -/
def masterEntry (filename : String) (r : Rendition) : MasterEntry :=
  { bandwidth := renditionBandwidth r
    width := renditionWidth r
    height := r.height
    name := r.name
    uri := filename ++ "_" ++ r.name ++ ".m3u8" }

def masterPlaylistEntries (renditions : List Rendition) (filename : String) :
    List MasterEntry :=
  renditions.map (masterEntry filename)

def bandwidthText : Option ℕ → String
  | some n => toString n
  | none => "NaN"

/-- The textual content `createMasterPlaylist` writes. -/
def masterPlaylistContent (renditions : List Rendition) (filename : String) : String :=
  (masterPlaylistEntries renditions filename).foldl
    (fun acc e =>
      acc ++ "#EXT-X-STREAM-INF:BANDWIDTH=" ++ bandwidthText e.bandwidth ++
        ",RESOLUTION=" ++ toString e.width ++ "x" ++ toString e.height ++
        ",NAME=\x22" ++ e.name ++ "\x22\n" ++ e.uri ++ "\n\n")
    "#EXTM3U\n#EXT-X-VERSION:3\n\n"

/-- The path `createMasterPlaylist` returns:
`path.join(outputDir, filename + "_master.m3u8")`. -/
def masterPlaylistPath (outputDir filename : String) : String :=
  outputDir ++ "/" ++ filename ++ "_master.m3u8"

/-- Outcome of `createMasterPlaylist`: the `fs.writeFile` call may throw
(`writeOutcome` is the environment-provided verdict); on a normal return the
written path is handed back. -/
def createMasterPlaylist (outputDir filename : String)
    (writeOutcome : Except String Unit) : Except String String :=
  match writeOutcome with
  | .error e => .error e
  | .ok _ => .ok (masterPlaylistPath outputDir filename)

/- ## Encoder progress extraction (`transcodeSingleRendition` stderr handler) -/

structure Timestamp where
  h : ℕ
  m : ℕ
  s : ℚ
deriving DecidableEq, Repr

def Timestamp.seconds (t : Timestamp) : ℚ := t.h * 3600 + t.m * 60 + t.s

/-- One stderr `data` event: the `Duration: HH:MM:SS.ff` regex match in the
chunk, if any, and the `time=HH:MM:SS.ff` regex match, if any. -/
structure StderrChunk where
  dur : Option Timestamp
  time : Option Timestamp
deriving DecidableEq, Repr

/-- JS truthiness of the `duration` variable (`null` and `0` are falsy). -/
def durTruthy : Option ℚ → Bool
  | none => false
  | some d => decide (d ≠ 0)

structure FFState where
  duration : Option ℚ
  delivered : List ℚ
deriving DecidableEq, Repr

/-- The `stderr.on("data")` handler of `transcodeSingleRendition`, for a run
with a progress callback supplied: first the duration-parsing block guarded by
`!duration`, then the `time=` block guarded by the (updated) `duration` being
truthy, appending `Math.min(100, (currentTime / duration) * 100)` to the
values delivered to the callback. -/
def ffmpegChunkStep (st : FFState) (c : StderrChunk) : FFState :=
  let d1 : Option ℚ :=
    if durTruthy st.duration then st.duration
    else
      match c.dur with
      | some t => some t.seconds
      | none => st.duration
  let delivered :=
    match c.time with
    | some t =>
      if durTruthy d1 then
        st.delivered ++ [min 100 ((t.seconds / d1.getD 0) * 100)]
      else st.delivered
    | none => st.delivered
  { duration := d1, delivered := delivered }

/-- Folding the stderr handler over the whole stream of data events. -/
def ffmpegProgressRun (chunks : List StderrChunk) : FFState :=
  chunks.foldl ffmpegChunkStep { duration := none, delivered := [] }

/-- The sequence of duration values parsed out of the stream, in order. -/
def parsedDurations (chunks : List StderrChunk) : List ℚ :=
  chunks.filterMap (fun c => c.dur.map Timestamp.seconds)

/-- First nonzero element of a list of rationals. -/
def firstNonzero (l : List ℚ) : Option ℚ :=
  l.find? (fun d => decide (d ≠ 0))

/-- Declarative description of the delivered progress values: walking the
chunks while remembering all durations seen so far, a `time=` occurrence
delivers `min 100 (cur / D * 100)` exactly when the prefix (including the
current chunk) contains a nonzero parsed duration `D`, the first such. -/
def deliveredSpecAux (seen : List ℚ) : List StderrChunk → List ℚ
  | [] => []
  | c :: cs =>
    (match c.time, firstNonzero (seen ++ (c.dur.map Timestamp.seconds).toList) with
     | some t, some D => [min 100 ((t.seconds / D) * 100)]
     | _, _ => []) ++
    deliveredSpecAux (seen ++ (c.dur.map Timestamp.seconds).toList) cs

def deliveredSpec (chunks : List StderrChunk) : List ℚ :=
  deliveredSpecAux [] chunks

/- ## Item results and uploads -/

/-- An entry of the list returned by `mediaUploader.uploadDirectory`. -/
structure UploadedFile where
  originalName : String
  s3Key : String
  url : String
deriving DecidableEq, Repr

/-- The per-item result object: union of the VIDEO shape produced by
`processVideo` and the IMAGE shape produced by `processImage`; `none`
models a `null` URL. -/
structure MediaResult where
  mediaId : String
  originalName : String
  filename : String
  mediaType : String
  status : String
  masterPlaylistUrl : Option String := none
  thumbnailUrl : Option String := none
  originalUrl : Option String := none
  imageUrl : Option String := none
  blurredThumbnailUrl : Option String := none
deriving DecidableEq, Repr

/- ## Video pipeline (`processVideo` in `src/processors/videoProcessor.js`) -/

/-- Environment for one `processVideo` invocation: outcomes of the external
collaborators (thumbnail encode, per-rendition transcode, master playlist
write, directory upload) and the progress values the encoder reports during
each rendition (index-based, in order). -/
structure VideoEnv where
  thumbnail : Except String String
  transcode : ℕ → Except String Unit
  encoderPcts : ℕ → List ℚ
  writeMaster : Except String Unit
  upload : Except String (List UploadedFile)

/-- The value the `processVideo` rendition loop passes to `progressCallback`
while rendition `k` (0-based) is encoding and the encoder reports `p`:
`(completedRenditions + progress / 100) * 100`. -/
def bridgeDuringValue (k : ℕ) (p : ℚ) : ℚ :=
  ((k : ℚ) + p / 100) * 100

/-- The value passed to `progressCallback` after rendition `k` completes:
`(completedRenditions / totalRenditions) * 100` with `completedRenditions`
already incremented. -/
def bridgeAfterValue (total k : ℕ) : ℚ :=
  (((k : ℚ) + 1) / (total : ℚ)) * 100

/-- The rendition loop of `processVideo`: serially transcode, emitting the
bridged progress values; a transcode failure aborts with the values delivered
so far. `k` is `completedRenditions` at entry. -/
def transcodeLoop (env : VideoEnv) (total : ℕ) :
    ℕ → List Rendition → List ℚ × Except String Unit
  | _, [] => ([], .ok ())
  | k, _r :: rs =>
    let duringVals := (env.encoderPcts k).map (bridgeDuringValue k)
    match env.transcode k with
    | .error e => (duringVals, .error e)
    | .ok _ =>
      let (tr, res) := transcodeLoop env total (k + 1) rs
      (duringVals ++ [bridgeAfterValue total k] ++ tr, res)

/-- Result of a `processVideo` call: the full list of values delivered to
`progressCallback`, and either a raised error or the returned value
(`none` models the implicit `undefined` return when the master-playlist
guard is not taken). -/
def processVideo (env : VideoEnv) (outputPath filename : String) (height : ℤ)
    (mediaId originalName : String) :
    List ℚ × Except String (Option MediaResult) :=
  let targets := selectRenditions height
  let (bridge, tres) := transcodeLoop env targets.length 0 targets
  match tres with
  | .error e => (bridge, .error e)
  | .ok _ =>
    match createMasterPlaylist outputPath (stemOf filename) env.writeMaster with
    | .error e => (bridge, .error e)
    | .ok masterPath =>
      if masterPath ≠ "" then
        match env.upload with
        | .error e => (bridge, .error e)
        | .ok files =>
          let masterFile := files.find? (fun f => strIncludes f.originalName "_master.m3u8")
          let thumbFile := files.find? (fun f => strIncludes f.originalName "_thumbnail.jpg")
          (bridge, .ok (some
            { mediaId := mediaId
              originalName := originalName
              filename := filename
              mediaType := "VIDEO"
              status := "success"
              masterPlaylistUrl := (masterFile.map (fun f => f.url)).bind jsStrOrNull
              thumbnailUrl := (thumbFile.map (fun f => f.url)).bind jsStrOrNull }))
      else (bridge, .ok none)

/-- The additive delta the executor's `videoProgressCallback` computes from a
bridged value `v`: `(progressPerMedia * 0.7) * (videoProgress / 100)`. -/
def videoProgressAmount (perItem v : ℚ) : ℚ :=
  (perItem * (7 / 10)) * (v / 100)

/- ## Filesystem model -/

/-- A path is a list of components; the download root is `downloads`, the
output root is `output` (the `__dirname`-relative prefixes are constant and
elided). -/
abbrev FsPath := List String

/-- The filesystem is the set of existing paths. -/
abbrev Fs := List FsPath

def fsInsert (p : FsPath) (fs : Fs) : Fs :=
  if p ∈ fs then fs else p :: fs

/-- `fs.rm(root, {recursive: true, force: true})`: drop every path having
`root` as a prefix. -/
def fsRemoveTree (root : FsPath) (fs : Fs) : Fs :=
  fs.filter (fun p => ! root.isPrefixOf p)

/- ## Progress store (`src/utils/progressTracker.js`), single post -/

structure MediaItem where
  id : String
  type : String
  filename : String
  originalName : String
  height : ℤ
deriving DecidableEq, Repr

/-- The per-post keys of the Redis store: `maxProgress:<postId>` (`none` when
the key is absent), `completed:<postId>`, `mediaResult:<postId>:<mediaId>`
as a partial map, and `progress:<postId>` reduced to the fields the claims
mention (rounded percentage and status). -/
structure Store where
  maxProgress : Option ℚ
  completed : List String
  results : String → Option MediaResult
  snapshot : Option (ℤ × Option String)

/-- `getMaxProgress`: parse the stored value, defaulting to 30. -/
def getMaxProgress (st : Store) : ℚ := st.maxProgress.getD 30

def setMaxProgress (v : ℚ) (st : Store) : Store := { st with maxProgress := some v }

/-- `markMediaCompleted`: append if not already present. -/
def markMediaCompleted (id : String) (st : Store) : Store :=
  if id ∈ st.completed then st else { st with completed := st.completed ++ [id] }

def setMediaResult (id : String) (r : MediaResult) (st : Store) : Store :=
  { st with results := fun k => if k = id then some r else st.results k }

/-- `getAllMediaResults`: walk `completed` in order, keeping the ids whose
result key is present. -/
def getAllMediaResults (st : Store) : List MediaResult :=
  st.completed.filterMap st.results

/-- `new Map(existingResults.map(r => [r.mediaId, r])).get(id)`: with
duplicate keys the later entry wins. -/
def resultMapGet (rs : List MediaResult) (id : String) : Option MediaResult :=
  rs.reverse.find? (fun r => decide (r.mediaId = id))

/-- The seeding pass over `processedMediaResults` before the loop: position
`i` holds the mapped result of `media[i].id`, or stays `null`. -/
def seedResults (media : List MediaItem) (st : Store) : List (Option MediaResult) :=
  media.map (fun m => resultMapGet (getAllMediaResults st) m.id)

/-- Store well-formedness, maintained by `setMediaResult`/`markMediaCompleted`
as the executor uses them: each cached result is stored under its own
`mediaId` and the completion list has no duplicates. -/
def StoreWF (st : Store) : Prop :=
  (∀ id r, st.results id = some r → r.mediaId = id) ∧ st.completed.Nodup

/- ## Events and callbacks -/

/-- An outbound `notifyPrimaryServer` POST, reduced to the fields the claims
mention. -/
structure Callback where
  status : String
  progress : ℤ
deriving DecidableEq, Repr

/-- A terminal callback carries `status:"success"` or `status:"failed"`;
progress notifications carry `status:"processing"`. -/
def Callback.isTerminal (c : Callback) : Bool :=
  c.status == "success" || c.status == "failed"

/-- Observable actions of one job attempt, in order. -/
inductive Event where
  | jobProgress (percentage : ℤ) (status : Option String)
  | snapshotWrite (percentage : ℤ) (status : Option String)
  | setMax (v : ℚ)
  | completedMark (id : String)
  | resultWrite (id : String)
  | fsRm (p : FsPath)
  | fsMkdir (p : FsPath)
  | fileDownload (p : FsPath)
  | procInvoke (i : ℕ)
  | post (c : Callback)
deriving DecidableEq, Repr

/-- Events a bare progress report may emit (store max/snapshot writes, the
broker progress update, and a `status:"processing"` POST). -/
def Event.isProgressReport : Event → Bool
  | Event.jobProgress _ _ => true
  | Event.snapshotWrite _ _ => true
  | Event.setMax _ => true
  | Event.post c => c.status == "processing"
  | _ => false

/- ## Job executor (`media-processing` worker handler, retry-resilient
version, `src/queue/mediaQueue.js` lines 31-351) -/

structure RunState where
  progress : ℚ
  mediaProgress : List ℚ
  store : Store
  fs : Fs
  events : List Event
  results : List (Option MediaResult)

/-- `calculatedProgress`: `Math.min(95, 30 + mediaProgress.reduce(sum))`. -/
def calcProgress (mp : List ℚ) : ℚ :=
  min 95 (30 + mp.foldl (fun sum p => sum + p) 0)

/-- The per-item progress bump at the head of `updateProgress`: when a media
index is given and the delta is positive,
`mediaProgress[i] = Math.min(progressPerMedia, mediaProgress[i] + extra)`. -/
def upNewMp (perItem : ℚ) (s : RunState) (extra : ℚ) (idx : Option ℕ) : List ℚ :=
  match idx with
  | some i =>
    if 0 < extra then
      s.mediaProgress.set i (min perItem (s.mediaProgress.getD i 0 + extra))
    else s.mediaProgress
  | none => s.mediaProgress

/-- The `updateProgress` closure of the worker handler: optionally bump the
per-item progress (clamped at `progressPerMedia`), compute
`calculatedProgress`, consult the stored max, write the max only on strict
increase, then report (broker update, snapshot write, optional POST) the
resulting value. -/
def updateProgress (perItem : ℚ) (callbackUrl : Option String)
    (s : RunState) (extra : ℚ) (idx : Option ℕ) : RunState :=
  let mp := upNewMp perItem s extra idx
  let calcd := calcProgress mp
  let curMax := getMaxProgress s.store
  let prog := if curMax < calcd then calcd else curMax
  let st2 := if curMax < calcd then setMaxProgress calcd s.store else s.store
  let evs :=
    (if curMax < calcd then [Event.setMax calcd] else []) ++
    [Event.jobProgress (jsRound prog) none, Event.snapshotWrite (jsRound prog) none] ++
    (match callbackUrl with
     | some _ => [Event.post { status := "processing", progress := jsRound prog }]
     | none => [])
  { progress := prog
    mediaProgress := mp
    store := { st2 with snapshot := some (jsRound prog, none) }
    fs := s.fs
    events := s.events ++ evs
    results := s.results }

/-- Environment of one attempt: outcomes of the per-item external calls
(signed-URL issuance, download, processor invocation), the bridged video
progress values delivered while item `i` is processing, and the outcome of
the terminal success POST (which is not wrapped in a `try` and therefore
throws into the catch block when it fails). -/
structure ExecEnv where
  signedUrl : ℕ → Except String String
  download : ℕ → Except String Unit
  process : ℕ → Except String (Option MediaResult)
  bridge : ℕ → List ℚ
  successPost : Except String Unit

def outputRoot : FsPath := ["output"]
def downloadRoot : FsPath := ["downloads"]

/-- Scratch-directory phase of one iteration: purge then recreate
`<output>/postId/mediaId` and `<downloads>/mediaId`. -/
def itemScratch (postId : String) (m : MediaItem) (s : RunState) : RunState :=
  { s with
    fs := fsInsert ["downloads", m.id] (fsRemoveTree ["downloads", m.id]
      (fsInsert ["output", postId, m.id]
        (fsRemoveTree ["output", postId, m.id] s.fs)))
    events := s.events ++
      [Event.fsRm ["output", postId, m.id], Event.fsMkdir ["output", postId, m.id],
       Event.fsRm ["downloads", m.id], Event.fsMkdir ["downloads", m.id]] }

/-- Download phase: `downloadFromUrl(signedUrl, localDownloadPath)` streams the
body to the per-post download path. -/
def itemDownloaded (postId : String) (s : RunState) : RunState :=
  { s with
    fs := fsInsert ["downloads", postId] s.fs
    events := s.events ++ [Event.fileDownload ["downloads", postId]] }

/-- Mark that the processor for item `i` was invoked. -/
def procMark (i : ℕ) (s : RunState) : RunState :=
  { s with events := s.events ++ [Event.procInvoke i] }

/-- The bridged progress callbacks fired while item `i` is transcoding. -/
def bridgeFold (perItem : ℚ) (cb : Option String) (i : ℕ) (l : List ℚ)
    (s : RunState) : RunState :=
  l.foldl (fun acc v =>
    updateProgress perItem cb acc (videoProgressAmount perItem v) (some i)) s

/-- Result-recording phase: on a truthy processor result, write it into the
output array at index `i`, `markMediaCompleted`, then `setMediaResult`. -/
def itemRecord (i : ℕ) (m : MediaItem) (res : Option MediaResult)
    (s : RunState) : RunState :=
  match res with
  | some r =>
    { s with
      results := s.results.set i (some r)
      store := setMediaResult m.id r (markMediaCompleted m.id s.store)
      events := s.events ++ [Event.completedMark m.id, Event.resultWrite m.id] }
  | none => s

/-- One iteration of the per-item loop. Returns the state and `some error`
when the iteration threw. -/
def processItem (perItem : ℚ) (cb : Option String) (postId : String)
    (env : ExecEnv) (i : ℕ) (m : MediaItem) (s : RunState) :
    RunState × Option String :=
  if m.id ∈ s.store.completed then
    (updateProgress perItem cb s 0 (some i), none)
  else
    let s2 := itemScratch postId m (updateProgress perItem cb s 0 (some i))
    match env.signedUrl i with
    | .error e => (s2, some e)
    | .ok _ =>
      match env.download i with
      | .error e => (s2, some e)
      | .ok _ =>
        let s4 := updateProgress perItem cb (itemDownloaded postId s2)
          (perItem * (1/10)) (some i)
        if m.type = "VIDEO" then
          let s7 := bridgeFold perItem cb i (env.bridge i)
            (procMark i (updateProgress perItem cb s4 0 (some i)))
          match env.process i with
          | .error e => (s7, some e)
          | .ok res =>
            (updateProgress perItem cb (itemRecord i m res s7)
              (perItem * (2/10)) (some i), none)
        else if m.type = "IMAGE" then
          let s6 := procMark i (updateProgress perItem cb s4 0 (some i))
          match env.process i with
          | .error e => (s6, some e)
          | .ok res =>
            (updateProgress perItem cb (itemRecord i m res s6)
              (perItem * (9/10)) (some i), none)
        else (s4, none)

/-- The per-item loop; stops at the first thrown error. -/
def processLoop (perItem : ℚ) (cb : Option String) (postId : String)
    (env : ExecEnv) : List (ℕ × MediaItem) → RunState → RunState × Option String
  | [], s => (s, none)
  | (i, m) :: rest, s =>
    match processItem perItem cb postId env i m s with
    | (s1, some e) => (s1, some e)
    | (s1, none) => processLoop perItem cb postId env rest s1

/-- The catch block: re-read the max, write the failed snapshot at the
unchanged max, purge the two per-post scratch roots, and POST the terminal
failure payload when a callback URL is present. -/
def failurePath (cb : Option String) (postId : String) (s : RunState) : RunState :=
  let curMax := getMaxProgress s.store
  let s1 := { s with
    store := { s.store with snapshot := some (jsRound curMax, some "failed") }
    events := s.events ++
      [Event.jobProgress (jsRound curMax) (some "failed"),
       Event.snapshotWrite (jsRound curMax) (some "failed")] }
  let s2 := { s1 with
    fs := fsRemoveTree ["downloads", postId] (fsRemoveTree ["output", postId] s1.fs)
    events := s1.events ++ [Event.fsRm ["output", postId], Event.fsRm ["downloads", postId]] }
  match cb with
  | some _ =>
    let m2 := getMaxProgress s2.store
    { s2 with events := s2.events ++ [Event.post { status := "failed", progress := jsRound m2 }] }
  | none => s2

structure Job where
  postId : String
  media : List MediaItem
  s3Key : String
  userId : String
  callbackUrl : Option String

structure JobReturn where
  postId : String
  mediaResults : List MediaResult
  totalProcessed : ℕ
  status : String
deriving DecidableEq, Repr

/-- The handler state right before the starting progress report: max re-read,
per-item progress restored from the completion set, output array seeded, the
two scratch roots created. -/
def initState (job : Job) (st0 : Store) (fs0 : Fs) : RunState :=
  let n := job.media.length
  let perItem : ℚ := 70 / (n : ℚ)
  let maxP := getMaxProgress st0
  let progress0 := max 30 maxP
  let mp0 := job.media.map (fun m => if m.id ∈ st0.completed then perItem else 0)
  let completedCount :=
    (job.media.filter (fun m => decide (m.id ∈ st0.completed))).length
  let progress1 :=
    if 0 < completedCount then
      max progress0 (30 + mp0.foldl (fun sum p => sum + p) 0)
    else progress0
  let finalMax := getMaxProgress st0
  let progress2 := if progress1 < finalMax then finalMax else progress1
  { progress := progress2
    mediaProgress := mp0
    store := st0
    fs := fsInsert outputRoot (fsInsert downloadRoot fs0)
    events := [Event.fsMkdir downloadRoot, Event.fsMkdir outputRoot]
    results := seedResults job.media st0 }

/-- The handler body before the loop: the initial state followed by the
starting progress report. -/
def preLoopState (job : Job) (st0 : Store) (fs0 : Fs) : RunState :=
  updateProgress (70 / (job.media.length : ℚ)) job.callbackUrl
    (initState job st0 fs0) 0 none

/-- One attempt of the `media-processing` worker handler. Returns the final
run state (store, filesystem, event trace) and either the returned terminal
object or the re-raised error. -/
def runJob (job : Job) (env : ExecEnv) (st0 : Store) (fs0 : Fs) :
    RunState × Except String JobReturn :=
  let perItem : ℚ := 70 / (job.media.length : ℚ)
  let s1 := preLoopState job st0 fs0
  match processLoop perItem job.callbackUrl job.postId env job.media.enum s1 with
  | (s2, some e) => (failurePath job.callbackUrl job.postId s2, .error e)
  | (s2, none) =>
    let s3 := updateProgress perItem job.callbackUrl s2 0 none
    let s4 := { s3 with
      fs := fsRemoveTree ["downloads", job.postId] (fsRemoveTree ["output", job.postId] s3.fs)
      events := s3.events ++ [Event.fsRm ["output", job.postId], Event.fsRm ["downloads", job.postId]] }
    let s5 := updateProgress perItem job.callbackUrl s4 5 none
    let s6 := { s5 with
      progress := 100
      store := setMaxProgress 100 s5.store
      events := s5.events ++ [Event.setMax 100] }
    let valid := s6.results.filterMap id
    let ret : JobReturn :=
      { postId := job.postId, mediaResults := valid,
        totalProcessed := valid.length, status := "success" }
    match job.callbackUrl with
    | some _ =>
      if valid.isEmpty then (s6, .ok ret)
      else
        let s7 := { s6 with
          events := s6.events ++ [Event.post { status := "success", progress := 100 }] }
        match env.successPost with
        | .error e => (failurePath job.callbackUrl job.postId s7, .error e)
        | .ok _ => (s7, .ok ret)
    | none => (s6, .ok ret)

/-- A terminal POST event (`status:"success"` or `status:"failed"`). -/
def Event.isTerminalPost : Event → Bool
  | .post c => c.isTerminal
  | _ => false

/-- Every POST in the trace is a progress notification. -/
def postsProcessing (l : List Event) : Prop :=
  ∀ c, Event.post c ∈ l → c.status = "processing"

/-- Every `maxProgress` write in the trace is at most 95 (the clamp of
`calculatedProgress`). -/
def setMaxBounded (l : List Event) : Prop :=
  ∀ v, Event.setMax v ∈ l → v ≤ 95

/-- The states after each call in a sequence of `updateProgress` invocations,
each call given by its extra-progress delta and optional media index. -/
def upStates (perItem : ℚ) (cb : Option String) (s : RunState) :
    List (ℚ × Option ℕ) → List RunState
  | [] => []
  | c :: rest =>
    updateProgress perItem cb s c.1 c.2 ::
      upStates perItem cb (updateProgress perItem cb s c.1 c.2) rest

/- ## Concrete fixtures used by witnesses and counterexamples -/

/-- A store with no keys present. -/
def emptyStore : Store :=
  { maxProgress := none, completed := [], results := fun _ => none, snapshot := none }

/-- An environment where every external call succeeds and produces nothing. -/
def idleEnv : ExecEnv :=
  { signedUrl := fun _ => .ok "https://signed"
    download := fun _ => .ok ()
    process := fun _ => .ok none
    bridge := fun _ => []
    successPost := .ok () }

/-- Video environment where the encoder reports 50% during the second
rendition and everything succeeds. -/
def c3Env : VideoEnv :=
  { thumbnail := .ok "thumb"
    transcode := fun _ => .ok ()
    encoderPcts := fun k => if k = 1 then [50] else []
    writeMaster := .ok ()
    upload := .ok [] }

/-- Video environment where every collaborator succeeds trivially. -/
def c10Env : VideoEnv :=
  { thumbnail := .ok "thumb"
    transcode := fun _ => .ok ()
    encoderPcts := fun _ => []
    writeMaster := .ok ()
    upload := .ok [] }

/-- A stderr stream whose first `Duration:` occurrence parses to 0 seconds,
followed by a second `Duration:` of 10 s and then a `time=` of 5 s. -/
def c8Chunks : List StderrChunk :=
  [ { dur := some { h := 0, m := 0, s := 0 }, time := none },
    { dur := some { h := 0, m := 0, s := 10 }, time := none },
    { dur := none, time := some { h := 0, m := 0, s := 5 } } ]

/-- A job with an empty media array. -/
def c4Job : Job :=
  { postId := "p1", media := [], s3Key := "k/", userId := "u", callbackUrl := none }

/-- A cached image result for media id `m1`. -/
def imgResult : MediaResult :=
  { mediaId := "m1", originalName := "a.jpg", filename := "a.jpg",
    mediaType := "IMAGE", status := "success",
    originalUrl := some "https://o", imageUrl := some "https://i",
    blurredThumbnailUrl := none }

def imageItem : MediaItem :=
  { id := "m1", type := "IMAGE", filename := "a.jpg", originalName := "a.jpg",
    height := 0 }

/-- A one-image job without callback URL. -/
def c5Job : Job :=
  { postId := "p1", media := [imageItem], s3Key := "k/", userId := "u",
    callbackUrl := none }

/-- Environment where the single item processes successfully. -/
def c5Env : ExecEnv :=
  { idleEnv with process := fun _ => .ok (some imgResult) }

/-- A one-image job with a callback URL. -/
def c6Job : Job :=
  { postId := "p1", media := [imageItem], s3Key := "k/", userId := "u",
    callbackUrl := some "https://cb" }

/-- Environment where processing the item throws. -/
def c6Env : ExecEnv :=
  { idleEnv with process := fun _ => .error "boom" }

/-- A store holding media id `m1` as completed with its cached result. -/
def c2Store : Store :=
  { maxProgress := some 65
    completed := ["m1"]
    results := fun k => if k = "m1" then some imgResult else none
    snapshot := none }

/-- An executor state mid-run over `c2Store`. -/
def c2State : RunState :=
  { progress := 65, mediaProgress := [70], store := c2Store, fs := [],
    events := [], results := [some imgResult] }

/-- A state used to exercise `updateProgress` directly. -/
def c1State : RunState :=
  { progress := 30, mediaProgress := [0, 0], store := emptyStore, fs := [],
    events := [], results := [none, none] }

/- # Theorems -/

/- ## C7: rendition selection -/

theorem mem_selectRenditions (h : ℤ) (r : Rendition)
    (hr : r ∈ selectRenditions h) : r ∈ RENDITIONS := by
  simp only [selectRenditions] at hr
  split at hr
  · simp only [List.mem_singleton] at hr
    subst hr
    decide
  · exact (List.mem_filter.mp hr).1

/-- C7: for every VIDEO item the selected rendition set equals the ladder
entries with `height ≤ item.height` (in ladder order) whenever that filter is
non-empty, which is exactly for heights of at least 480; for heights below
480 the filter is empty and the selection is the single bottom rung 480p; in
particular height 1080 selects 480p, 720p, 1080p. -/
theorem C7_rendition_selection :
    (∀ h : ℤ, 480 ≤ h →
        selectRenditions h = RENDITIONS.filter (fun r => r.height ≤ h)) ∧
    (∀ h : ℤ, h < 480 →
        RENDITIONS.filter (fun r => r.height ≤ h) = [] ∧
        (selectRenditions h).map (fun r => r.name) = ["480p"]) ∧
    (selectRenditions 1080).map (fun r => r.name) = ["480p", "720p", "1080p"] := by
  refine ⟨?_, ?_, by decide⟩
  · intro h hh
    have hmem : (RENDITIONS[0]!) ∈ RENDITIONS.filter (fun r => r.height ≤ h) := by
      rw [List.mem_filter]
      refine ⟨by decide, ?_⟩
      rw [show (RENDITIONS[0]!).height = 480 from rfl]
      exact decide_eq_true hh
    simp only [selectRenditions]
    rw [if_neg]
    intro hemp
    rw [List.isEmpty_iff] at hemp
    rw [hemp] at hmem
    exact absurd hmem (List.not_mem_nil _)
  · intro h hh
    have hfil : RENDITIONS.filter (fun r => r.height ≤ h) = [] := by
      rw [List.filter_eq_nil_iff]
      intro r hr
      simp only [decide_eq_true_eq]
      simp only [RENDITIONS, List.mem_cons, List.not_mem_nil, or_false] at hr
      rcases hr with h1 | h1 | h1 | h1 <;> subst h1 <;> dsimp only <;> omega
    refine ⟨hfil, ?_⟩
    simp only [selectRenditions, hfil]
    decide

theorem C7_rendition_selection_witness :
    selectRenditions 1080 = RENDITIONS.filter (fun r => r.height ≤ (1080 : ℤ)) ∧
    RENDITIONS.filter (fun r => r.height ≤ (300 : ℤ)) = [] ∧
    (selectRenditions 300).map (fun r => r.name) = ["480p"] :=
  ⟨C7_rendition_selection.1 1080 (by decide),
   (C7_rendition_selection.2.1 300 (by decide)).1,
   (C7_rendition_selection.2.1 300 (by decide)).2⟩

/- ## C9: master playlist bandwidth and resolution -/

theorem ladder_bandwidth_parses : ∀ r ∈ RENDITIONS,
    renditionBandwidth r =
      some (((parseIntLeading (stripTrailingK r.videoBitrate)).getD 0 +
             (parseIntLeading (stripTrailingK r.audioBitrate)).getD 0) * 1000) ∧
    (parseIntLeading (stripTrailingK r.videoBitrate)).isSome = true ∧
    (parseIntLeading (stripTrailingK r.audioBitrate)).isSome = true := by
  decide

/-- C9: each master-playlist entry carries
`bandwidth = (parse videoBitrate + parse audioBitrate) × 1000` (with `parse`
stripping a trailing k/K and succeeding on every selected rendition) and
`width = round(height × 16/9)`; the 720p rung `{2800k, 128k}` yields
2 928 000 and width 1280. -/
theorem C9_master_bandwidth_width :
    (∀ (fname : String) (r : Rendition),
        (masterEntry fname r).bandwidth = renditionBandwidth r ∧
        (masterEntry fname r).width = renditionWidth r ∧
        renditionWidth r = jsRound ((r.height * 16 : ℚ) / 9)) ∧
    (∀ (h : ℤ) (r : Rendition), r ∈ selectRenditions h →
        renditionBandwidth r =
          some (((parseIntLeading (stripTrailingK r.videoBitrate)).getD 0 +
                 (parseIntLeading (stripTrailingK r.audioBitrate)).getD 0) * 1000) ∧
        (parseIntLeading (stripTrailingK r.videoBitrate)).isSome = true ∧
        (parseIntLeading (stripTrailingK r.audioBitrate)).isSome = true) ∧
    stripTrailingK "2800k" = "2800" ∧
    stripTrailingK "128K" = "128" ∧
    renditionBandwidth (RENDITIONS[1]!) = some ((2800 + 128) * 1000) ∧
    (2800 + 128) * 1000 = 2928000 ∧
    renditionWidth (RENDITIONS[1]!) = 1280 := by
  refine ⟨fun fname r => ⟨rfl, rfl, rfl⟩, ?_, by decide, by decide, by decide,
    by decide, ?_⟩
  · intro h r hr
    exact ladder_bandwidth_parses r (mem_selectRenditions h r hr)
  · show jsRound ((((720 : ℤ) : ℚ) * 16) / 9) = 1280
    norm_num [jsRound]

/- ## C10: processVideo normal returns -/

theorem masterPlaylistPath_ne_empty (o f : String) :
    masterPlaylistPath o f ≠ "" := by
  intro hc
  have h1 : (((o ++ "/").data ++ f.data) ++ ("_master.m3u8").data) = ([] : List Char) := by
    have h2 := congrArg String.data hc
    simpa only [masterPlaylistPath, String.data_append] using h2
  exact absurd (List.append_eq_nil.mp h1).2 (by decide)

/-- C10: `createMasterPlaylist` either throws or returns the non-empty path of
the playlist it wrote, so the truthiness guard on `masterPath` in
`processVideo` is always taken: every normal (non-throwing) return of
`processVideo` is a result object with `mediaType = "VIDEO"` and
`status = "success"`; the implicit `undefined`-returning branch is
unreachable. -/
theorem C10_processVideo_normal_return :
    (∀ (outDir fname : String) (w : Except String Unit) (p : String),
        createMasterPlaylist outDir fname w = .ok p → p ≠ "") ∧
    (∀ (env : VideoEnv) (outputPath filename : String) (height : ℤ)
        (mediaId originalName : String) (o : Option MediaResult),
        (processVideo env outputPath filename height mediaId originalName).2 = .ok o →
        ∃ res, o = some res ∧ res.mediaType = "VIDEO" ∧ res.status = "success") := by
  constructor
  · intro outDir fname w p hp
    cases w with
    | error e => simp [createMasterPlaylist] at hp
    | ok u =>
      simp only [createMasterPlaylist, Except.ok.injEq] at hp
      exact hp ▸ masterPlaylistPath_ne_empty outDir fname
  · intro env op fn h mid onm o ho
    rw [processVideo] at ho
    rcases hTL : transcodeLoop env (selectRenditions h).length 0 (selectRenditions h)
      with ⟨bridge, tres⟩
    rw [hTL] at ho
    cases tres with
    | error e => simp at ho
    | ok u =>
      cases hw : env.writeMaster with
      | error e => simp [createMasterPlaylist, hw] at ho
      | ok v =>
        simp only [createMasterPlaylist, hw] at ho
        rw [if_pos (masterPlaylistPath_ne_empty op (stemOf fn))] at ho
        cases hu : env.upload with
        | error e => simp [hu] at ho
        | ok files =>
          simp only [hu, Except.ok.injEq] at ho
          exact ⟨_, ho.symm, rfl, rfl⟩

theorem C10_processVideo_normal_return_witness :
    ("out/a_master.m3u8" : String) ≠ "" ∧
    (∃ res,
      (some { mediaId := "m1", originalName := "a.mp4", filename := "a.mp4",
              mediaType := "VIDEO", status := "success" } : Option MediaResult) =
        some res ∧ res.mediaType = "VIDEO" ∧ res.status = "success") :=
  ⟨C10_processVideo_normal_return.1 "out" "a" (.ok ()) "out/a_master.m3u8" rfl,
   C10_processVideo_normal_return.2 c10Env "out" "a.mp4" 300 "m1" "a.mp4" _ rfl⟩

/- ## C8: encoder progress extraction -/

theorem firstNonzero_append (l1 l2 : List ℚ) :
    firstNonzero (l1 ++ l2) = (firstNonzero l1).or (firstNonzero l2) := by
  simp [firstNonzero, List.find?_append]

theorem firstNonzero_some_ne (l : List ℚ) (D : ℚ)
    (h : firstNonzero l = some D) : D ≠ 0 := by
  have h2 := List.find?_some
    (show List.find? (fun d => decide (d ≠ 0)) l = some D from h)
  simpa using h2

theorem ffmpegChunkStep_inv (st : FFState) (seen : List ℚ) (c : StderrChunk)
    (hsome : ∀ D, firstNonzero seen = some D → st.duration = some D)
    (hnone : firstNonzero seen = none → durTruthy st.duration = false) :
    (∀ D, firstNonzero (seen ++ (c.dur.map Timestamp.seconds).toList) = some D →
        (ffmpegChunkStep st c).duration = some D) ∧
    (firstNonzero (seen ++ (c.dur.map Timestamp.seconds).toList) = none →
        durTruthy (ffmpegChunkStep st c).duration = false) := by
  cases hcd : c.dur with
  | none =>
    have hd1 : (ffmpegChunkStep st c).duration = st.duration := by
      simp [ffmpegChunkStep, hcd]
    simp only [Option.map_none', Option.toList_none, List.append_nil]
    exact ⟨fun D hD => hd1 ▸ hsome D hD, fun hD => hd1 ▸ hnone hD⟩
  | some t0 =>
    simp only [Option.map_some', Option.toList_some]
    rcases hfz : firstNonzero seen with _ | D
    · have hfalse : durTruthy st.duration = false := hnone hfz
      have hd1 : (ffmpegChunkStep st c).duration = some t0.seconds := by
        simp [ffmpegChunkStep, hcd, hfalse]
      by_cases ht0 : t0.seconds = 0
      · have hv : firstNonzero (seen ++ [t0.seconds]) = none := by
          rw [firstNonzero_append, hfz]
          show firstNonzero [t0.seconds] = none
          simp [firstNonzero, ht0]
        refine ⟨fun D hD => ?_, fun _ => ?_⟩
        · rw [hv] at hD
          cases hD
        · rw [hd1]
          simp [durTruthy, ht0]
      · have hv : firstNonzero (seen ++ [t0.seconds]) = some t0.seconds := by
          rw [firstNonzero_append, hfz]
          show firstNonzero [t0.seconds] = some t0.seconds
          simp [firstNonzero, ht0]
        refine ⟨fun D hD => ?_, fun hD => ?_⟩
        · rw [hv] at hD
          rw [hd1, hD]
        · rw [hv] at hD
          cases hD
    · have hdur : st.duration = some D := hsome D hfz
      have hD0 : D ≠ 0 := firstNonzero_some_ne seen D hfz
      have hd1 : (ffmpegChunkStep st c).duration = some D := by
        simp [ffmpegChunkStep, hdur, durTruthy, hD0]
      have hv : firstNonzero (seen ++ [t0.seconds]) = some D := by
        rw [firstNonzero_append, hfz]
        rfl
      refine ⟨fun D2 hD2 => ?_, fun hD2 => ?_⟩
      · rw [hv] at hD2
        rw [hd1, ← Option.some.injEq] at *
        rw [hd1, ← hD2]
      · rw [hv] at hD2
        cases hD2

theorem ffmpegChunkStep_delivered (st : FFState) (seen : List ℚ) (c : StderrChunk)
    (hsome : ∀ D, firstNonzero seen = some D → st.duration = some D)
    (hnone : firstNonzero seen = none → durTruthy st.duration = false) :
    (ffmpegChunkStep st c).delivered = st.delivered ++
      (match c.time, firstNonzero (seen ++ (c.dur.map Timestamp.seconds).toList) with
       | some t, some D => [min 100 ((t.seconds / D) * 100)]
       | _, _ => []) := by
  cases hcd : c.dur with
  | none =>
    simp only [Option.map_none', Option.toList_none, List.append_nil]
    cases hct : c.time with
    | none => simp [ffmpegChunkStep, hct]
    | some t =>
      rcases hfz : firstNonzero seen with _ | D
      · have hfalse : durTruthy st.duration = false := hnone hfz
        simp [ffmpegChunkStep, hct, hcd, hfalse]
      · have hdur : st.duration = some D := hsome D hfz
        have hD0 : D ≠ 0 := firstNonzero_some_ne seen D hfz
        simp [ffmpegChunkStep, hct, hcd, hdur, durTruthy, hD0]
  | some t0 =>
    simp only [Option.map_some', Option.toList_some]
    cases hct : c.time with
    | none => simp [ffmpegChunkStep, hct]
    | some t =>
      rcases hfz : firstNonzero seen with _ | D
      · have hfalse : durTruthy st.duration = false := hnone hfz
        by_cases ht0 : t0.seconds = 0
        · have hv : firstNonzero (seen ++ [t0.seconds]) = none := by
            rw [firstNonzero_append, hfz]
            show firstNonzero [t0.seconds] = none
            simp [firstNonzero, ht0]
          simp only [ffmpegChunkStep, hct, hcd, hfalse, hv]
          simp [durTruthy, ht0]
        · have hv : firstNonzero (seen ++ [t0.seconds]) = some t0.seconds := by
            rw [firstNonzero_append, hfz]
            show firstNonzero [t0.seconds] = some t0.seconds
            simp [firstNonzero, ht0]
          simp only [ffmpegChunkStep, hct, hcd, hfalse, hv]
          simp [durTruthy, ht0]
      · have hdur : st.duration = some D := hsome D hfz
        have hD0 : D ≠ 0 := firstNonzero_some_ne seen D hfz
        have hv : firstNonzero (seen ++ [t0.seconds]) = some D := by
          rw [firstNonzero_append, hfz]
          rfl
        simp [ffmpegChunkStep, hct, hcd, hdur, durTruthy, hD0, hv]

theorem ffmpeg_fold_aux : ∀ (cs : List StderrChunk) (st : FFState) (seen : List ℚ),
    (∀ D, firstNonzero seen = some D → st.duration = some D) →
    (firstNonzero seen = none → durTruthy st.duration = false) →
    (cs.foldl ffmpegChunkStep st).delivered = st.delivered ++ deliveredSpecAux seen cs
  | [], st, seen, _, _ => by simp [deliveredSpecAux]
  | c :: cs, st, seen, hsome, hnone => by
    rw [List.foldl_cons]
    simp only [deliveredSpecAux]
    obtain ⟨h1, h2⟩ := ffmpegChunkStep_inv st seen c hsome hnone
    rw [ffmpeg_fold_aux cs (ffmpegChunkStep st c)
        (seen ++ (c.dur.map Timestamp.seconds).toList) h1 h2,
      ffmpegChunkStep_delivered st seen c hsome hnone, List.append_assoc]

/-- C8 (amended): the values the driver delivers to a supplied progress
callback are exactly those of the declarative description `deliveredSpec`:
for each `time=` occurrence, a pct `min(100, current/total × 100)` is
delivered where `total` is the first Duration occurrence in the stream so far
that parses to a nonzero number of seconds; before such a nonzero duration is
parsed, no progress value is delivered (a first occurrence parsing to zero
leaves the duration unset and a later occurrence overrides it). -/
theorem C8_ffmpeg_progress_characterization (chunks : List StderrChunk) :
    (ffmpegProgressRun chunks).delivered = deliveredSpec chunks := by
  have h := ffmpeg_fold_aux chunks { duration := none, delivered := [] } []
    (fun D hD => by simp [firstNonzero] at hD)
    (fun _ => rfl)
  simpa [ffmpegProgressRun, deliveredSpec] using h

/-- C8 counterexample: when the first `Duration:` occurrence parses to
0 seconds (`00:00:00.00`), the zero value is falsy, so a later
`Duration: 00:00:10.00` overrides it: `total_seconds` is not fixed from the
first occurrence; the subsequent `time=00:00:05.00` delivers 50, computed
against total 10. -/
theorem C8_duration_zero_cex :
    (parsedDurations c8Chunks).headD 99 = 0 ∧
    (ffmpegProgressRun c8Chunks).duration = some 10 ∧
    (ffmpegProgressRun c8Chunks).delivered = [50] := by
  refine ⟨?_, ?_, ?_⟩ <;>
    norm_num [parsedDurations, ffmpegProgressRun, ffmpegChunkStep, c8Chunks,
      durTruthy, Timestamp.seconds, List.foldl, List.filterMap]

/- ## C3: the video progress bridge -/

/-- C3 (code bug): during the second rendition of a 720p video the bridge
receives `(1 + 50/100) * 100 = 150`, not the encoder percentage 50 in
`[0, 100]`; the executor then adds `0.7 × perItem × 150/100 = 73.5`, not the
`0.7 × perItem × 50/100 = 24.5` the claim requires. -/
theorem C3_video_bridge_overflow :
    (processVideo c3Env "out" "a.mp4" 720 "m1" "a.mp4").1 = [50, 150, 100] ∧
    ¬ ((150 : ℚ) ≤ 100) ∧
    videoProgressAmount 70 150 = 147 / 2 ∧
    70 * (7 / 10) * ((50 : ℚ) / 100) = 49 / 2 ∧
    (147 : ℚ) / 2 ≠ 49 / 2 := by
  refine ⟨?_, by norm_num, by norm_num [videoProgressAmount], by norm_num, by norm_num⟩
  norm_num [processVideo, c3Env, transcodeLoop, selectRenditions, RENDITIONS,
    bridgeDuringValue, bridgeAfterValue, createMasterPlaylist, List.filter]
  split <;> rfl

theorem C9_master_bandwidth_width_witness :
    renditionBandwidth (RENDITIONS[1]!) =
      some (((parseIntLeading (stripTrailingK (RENDITIONS[1]!).videoBitrate)).getD 0 +
             (parseIntLeading (stripTrailingK (RENDITIONS[1]!).audioBitrate)).getD 0) * 1000) ∧
    (parseIntLeading (stripTrailingK (RENDITIONS[1]!).videoBitrate)).isSome = true ∧
    (parseIntLeading (stripTrailingK (RENDITIONS[1]!).audioBitrate)).isSome = true :=
  C9_master_bandwidth_width.2.1 720 (RENDITIONS[1]!) (by decide)

/- ## C1: monotone progress reporting -/

theorem report_max (a b : ℚ) : (if b < a then a else b) = max a b := by
  by_cases h : b < a
  · rw [if_pos h, max_eq_left (le_of_lt h)]
  · rw [if_neg h, max_eq_right (le_of_not_lt h)]

theorem updateProgress_progress (perItem : ℚ) (cb : Option String)
    (s : RunState) (e : ℚ) (i : Option ℕ) :
    (updateProgress perItem cb s e i).progress =
      max (calcProgress ((updateProgress perItem cb s e i).mediaProgress))
        (getMaxProgress s.store) := by
  dsimp only [updateProgress]
  exact report_max _ _

theorem updateProgress_store_max (perItem : ℚ) (cb : Option String)
    (s : RunState) (e : ℚ) (i : Option ℕ) :
    getMaxProgress (updateProgress perItem cb s e i).store =
      max (calcProgress ((updateProgress perItem cb s e i).mediaProgress))
        (getMaxProgress s.store) := by
  by_cases h : getMaxProgress s.store < calcProgress (upNewMp perItem s e i)
  · dsimp only [updateProgress, setMaxProgress]
    rw [if_pos h, max_eq_left (le_of_lt h)]
    simp [getMaxProgress]
  · dsimp only [updateProgress, setMaxProgress]
    rw [if_neg h, max_eq_right (le_of_not_lt h)]
    rfl

theorem updateProgress_store_mono (perItem : ℚ) (cb : Option String)
    (s : RunState) (e : ℚ) (i : Option ℕ) :
    getMaxProgress s.store ≤ getMaxProgress (updateProgress perItem cb s e i).store := by
  rw [updateProgress_store_max]
  exact le_max_right _ _

theorem updateProgress_progress_eq_store (perItem : ℚ) (cb : Option String)
    (s : RunState) (e : ℚ) (i : Option ℕ) :
    (updateProgress perItem cb s e i).progress =
      getMaxProgress (updateProgress perItem cb s e i).store := by
  rw [updateProgress_progress, updateProgress_store_max]

theorem jsRound_mono {q r : ℚ} (h : q ≤ r) : jsRound q ≤ jsRound r :=
  Int.floor_le_floor (by linarith)

theorem upStates_chain {α : Type} [Preorder α] (perItem : ℚ) (cb : Option String)
    (f : RunState → α)
    (hmono : ∀ (s : RunState) (e : ℚ) (i : Option ℕ) (e2 : ℚ) (i2 : Option ℕ),
      f (updateProgress perItem cb s e i) ≤
        f (updateProgress perItem cb (updateProgress perItem cb s e i) e2 i2)) :
    ∀ (calls : List (ℚ × Option ℕ)) (s : RunState),
      List.Chain' (fun a b => a ≤ b) ((upStates perItem cb s calls).map f)
  | [], _ => by simp [upStates]
  | [c], s => by simp [upStates]
  | c :: c2 :: rest, s => by
    rw [upStates, upStates, List.map_cons, List.map_cons, List.chain'_cons]
    refine ⟨hmono s c.1 c.2 c2.1 c2.2, ?_⟩
    have h2 := upStates_chain perItem cb f hmono (c2 :: rest)
      (updateProgress perItem cb s c.1 c.2)
    rw [upStates, List.map_cons] at h2
    exact h2

/-- C1: over any sequence of `updateProgress` calls, the stored `maxProgress`
and the reported progress (both exact and rounded) are non-decreasing; each
call computes `calculatedProgress`, compares it with the stored max, and
writes/reports the calculated value only on strict excess, otherwise
reporting the stored value with the store unchanged. -/
theorem C1_progress_monotone (perItem : ℚ) (cb : Option String) (s : RunState)
    (calls : List (ℚ × Option ℕ)) :
    List.Chain' (fun a b => a ≤ b)
      ((upStates perItem cb s calls).map (fun t => getMaxProgress t.store)) ∧
    List.Chain' (fun a b => a ≤ b)
      ((upStates perItem cb s calls).map (fun t => t.progress)) ∧
    List.Chain' (fun a b => a ≤ b)
      ((upStates perItem cb s calls).map (fun t => jsRound t.progress)) ∧
    (∀ (e : ℚ) (i : Option ℕ),
      (getMaxProgress s.store <
          calcProgress ((updateProgress perItem cb s e i).mediaProgress) →
        getMaxProgress (updateProgress perItem cb s e i).store =
          calcProgress ((updateProgress perItem cb s e i).mediaProgress) ∧
        (updateProgress perItem cb s e i).progress =
          calcProgress ((updateProgress perItem cb s e i).mediaProgress)) ∧
      (calcProgress ((updateProgress perItem cb s e i).mediaProgress) ≤
          getMaxProgress s.store →
        (updateProgress perItem cb s e i).store.maxProgress = s.store.maxProgress ∧
        (updateProgress perItem cb s e i).progress = getMaxProgress s.store)) := by
  refine ⟨?_, ?_, ?_, ?_⟩
  · exact upStates_chain perItem cb (fun t => getMaxProgress t.store)
      (fun s2 e i e2 i2 => updateProgress_store_mono perItem cb _ e2 i2) calls s
  · refine upStates_chain perItem cb (fun t => t.progress) ?_ calls s
    intro s2 e i e2 i2
    dsimp only
    rw [updateProgress_progress_eq_store perItem cb s2 e i,
      updateProgress_progress_eq_store perItem cb (updateProgress perItem cb s2 e i) e2 i2]
    exact updateProgress_store_mono perItem cb _ e2 i2
  · refine upStates_chain perItem cb (fun t => jsRound t.progress) ?_ calls s
    intro s2 e i e2 i2
    dsimp only
    refine jsRound_mono ?_
    rw [updateProgress_progress_eq_store perItem cb s2 e i,
      updateProgress_progress_eq_store perItem cb (updateProgress perItem cb s2 e i) e2 i2]
    exact updateProgress_store_mono perItem cb _ e2 i2
  · intro e i
    constructor
    · intro hlt
      refine ⟨?_, ?_⟩
      · rw [updateProgress_store_max]
        exact max_eq_left (le_of_lt hlt)
      · rw [updateProgress_progress]
        exact max_eq_left (le_of_lt hlt)
    · intro hle
      have hle2 : calcProgress (upNewMp perItem s e i) ≤ getMaxProgress s.store := hle
      refine ⟨?_, ?_⟩
      · dsimp only [updateProgress, setMaxProgress]
        rw [if_neg (not_lt.mpr hle2)]
      · rw [updateProgress_progress]
        exact max_eq_right hle

theorem C1_progress_monotone_witness :
    List.Chain' (fun a b => a ≤ b)
      ((upStates 35 none c1State [(5, some 0), (40, some 1)]).map
        (fun t => getMaxProgress t.store)) ∧
    (getMaxProgress (updateProgress 35 none c1State 5 (some 0)).store =
        calcProgress ((updateProgress 35 none c1State 5 (some 0)).mediaProgress) ∧
      (updateProgress 35 none c1State 5 (some 0)).progress =
        calcProgress ((updateProgress 35 none c1State 5 (some 0)).mediaProgress)) :=
  ⟨(C1_progress_monotone 35 none c1State [(5, some 0), (40, some 1)]).1,
   ((C1_progress_monotone 35 none c1State [(5, some 0), (40, some 1)]).2.2.2 5 (some 0)).1
     (by norm_num [c1State, emptyStore, getMaxProgress, updateProgress, upNewMp,
        calcProgress, List.getD, List.foldl, List.set])⟩

/- ## C2: completed items are skipped and their cached results reused -/

theorem updateProgress_zero_mediaProgress (perItem : ℚ) (cb : Option String)
    (s : RunState) (i : ℕ) :
    (updateProgress perItem cb s 0 (some i)).mediaProgress = s.mediaProgress := by
  show upNewMp perItem s 0 (some i) = s.mediaProgress
  simp [upNewMp]

theorem updateProgress_store_completed (perItem : ℚ) (cb : Option String)
    (s : RunState) (e : ℚ) (i : Option ℕ) :
    (updateProgress perItem cb s e i).store.completed = s.store.completed := by
  dsimp only [updateProgress, setMaxProgress]
  split <;> rfl

theorem updateProgress_store_results (perItem : ℚ) (cb : Option String)
    (s : RunState) (e : ℚ) (i : Option ℕ) :
    (updateProgress perItem cb s e i).store.results = s.store.results := by
  dsimp only [updateProgress, setMaxProgress]
  split <;> rfl

theorem updateProgress_new_events (perItem : ℚ) (cb : Option String)
    (s : RunState) (e : ℚ) (i : Option ℕ) :
    ∀ ev ∈ (updateProgress perItem cb s e i).events.drop s.events.length,
      ev.isProgressReport = true := by
  intro ev hev
  dsimp only [updateProgress] at hev
  rw [List.drop_left] at hev
  rcases List.mem_append.mp hev with h1 | h1
  · rcases List.mem_append.mp h1 with h2 | h2
    · split at h2
      · rcases List.mem_singleton.mp h2 with rfl
        rfl
      · cases h2
    · rcases List.mem_cons.mp h2 with rfl | h3
      · rfl
      · rcases List.mem_singleton.mp h3 with rfl
        rfl
  · rcases hcb : cb with _ | u
    · rw [hcb] at h1
      cases h1
    · rw [hcb] at h1
      rcases List.mem_singleton.mp h1 with rfl
      rfl

theorem resultMapGet_eq (st : Store) (id : String)
    (wf : ∀ k r, st.results k = some r → r.mediaId = k)
    (hmem : id ∈ st.completed) :
    resultMapGet (getAllMediaResults st) id = st.results id := by
  cases hres : st.results id with
  | some r =>
    have hr_mem : r ∈ getAllMediaResults st :=
      List.mem_filterMap.mpr ⟨id, hmem, hres⟩
    have hpred : (fun x => decide (x.mediaId = id)) r = true := by
      simp [wf id r hres]
    have hsome :
        ((getAllMediaResults st).reverse.find?
          (fun x => decide (x.mediaId = id))).isSome := by
      rw [List.find?_isSome]
      exact ⟨r, List.mem_reverse.mpr hr_mem, hpred⟩
    obtain ⟨x, hx⟩ := Option.isSome_iff_exists.mp hsome
    have hxmem : x ∈ getAllMediaResults st :=
      List.mem_reverse.mp (List.mem_of_find?_eq_some hx)
    have hxpred : x.mediaId = id := by simpa using List.find?_some hx
    obtain ⟨i2, hi2mem, hi2res⟩ := List.mem_filterMap.mp hxmem
    have hi2 : i2 = id := by rw [← wf i2 x hi2res, hxpred]
    rw [resultMapGet, hx]
    rw [hi2] at hi2res
    rw [hi2res] at hres
    exact hres.symm ▸ rfl
  | none =>
    rw [resultMapGet, List.find?_eq_none.mpr ?hall]
    case hall =>
      intro a ha hpred
      have hamem := List.mem_reverse.mp ha
      obtain ⟨i2, hi2mem, hi2res⟩ := List.mem_filterMap.mp hamem
      have hid2 : a.mediaId = i2 := wf i2 a hi2res
      have hi2id : i2 = id := by
        rw [← hid2]
        exact of_decide_eq_true hpred
      rw [hi2id] at hi2res
      rw [hi2res] at hres
      cases hres

/-- C2: an item whose id is in the stored completed set is skipped entirely
by the loop iteration: the iteration is exactly the zero-delta progress ping
(no scratch purge or mkdir, no download, no processor invocation, no change
to the filesystem, output array, per-item progress, completion set or result
cache, and every emitted event is a progress report); and the output array
seeded before the loop holds the item cached result at the item original
index. -/
theorem C2_completed_item_skipped :
    (∀ (perItem : ℚ) (cb : Option String) (postId : String) (env : ExecEnv)
        (i : ℕ) (m : MediaItem) (s : RunState),
        m.id ∈ s.store.completed →
        processItem perItem cb postId env i m s =
          (updateProgress perItem cb s 0 (some i), none) ∧
        (updateProgress perItem cb s 0 (some i)).fs = s.fs ∧
        (updateProgress perItem cb s 0 (some i)).results = s.results ∧
        (updateProgress perItem cb s 0 (some i)).mediaProgress = s.mediaProgress ∧
        (updateProgress perItem cb s 0 (some i)).store.completed =
          s.store.completed ∧
        (updateProgress perItem cb s 0 (some i)).store.results = s.store.results ∧
        (∀ ev ∈ (updateProgress perItem cb s 0 (some i)).events.drop
            s.events.length, ev.isProgressReport = true)) ∧
    (∀ (media : List MediaItem) (st0 : Store) (i : ℕ) (m : MediaItem),
        (∀ k r, st0.results k = some r → r.mediaId = k) →
        media[i]? = some m →
        m.id ∈ st0.completed →
        (seedResults media st0)[i]? = some (st0.results m.id)) := by
  constructor
  · intro perItem cb postId env i m s hmem
    refine ⟨?_, rfl, rfl, updateProgress_zero_mediaProgress perItem cb s i,
      updateProgress_store_completed perItem cb s 0 (some i),
      updateProgress_store_results perItem cb s 0 (some i),
      updateProgress_new_events perItem cb s 0 (some i)⟩
    rw [processItem, if_pos hmem]
  · intro media st0 i m wf hget hmem
    rw [seedResults, List.getElem?_map, hget]
    simp only [Option.map_some']
    rw [resultMapGet_eq st0 m.id wf hmem]

theorem C2_completed_item_skipped_witness :
    (processItem 70 none "p1" idleEnv 0 imageItem c2State =
        (updateProgress 70 none c2State 0 (some 0), none) ∧
      (updateProgress 70 none c2State 0 (some 0)).fs = c2State.fs ∧
      (updateProgress 70 none c2State 0 (some 0)).results = c2State.results ∧
      (updateProgress 70 none c2State 0 (some 0)).mediaProgress =
        c2State.mediaProgress ∧
      (updateProgress 70 none c2State 0 (some 0)).store.completed =
        c2State.store.completed ∧
      (updateProgress 70 none c2State 0 (some 0)).store.results =
        c2State.store.results ∧
      (∀ ev ∈ (updateProgress 70 none c2State 0 (some 0)).events.drop
          c2State.events.length, ev.isProgressReport = true)) ∧
    (seedResults [imageItem] c2Store)[0]? = some (c2Store.results "m1") := by
  constructor
  · exact (C2_completed_item_skipped.1 70 none "p1" idleEnv 0 imageItem c2State
      (by decide))
  · exact C2_completed_item_skipped.2 [imageItem] c2Store 0 imageItem
      (by
        intro k r h
        by_cases hk : k = "m1"
        · subst hk
          rw [show c2Store.results "m1" = some imgResult from rfl] at h
          cases h
          rfl
        · simp only [c2Store] at h
          rw [if_neg hk] at h
          cases h)
      rfl (by decide)

/- ## Trace invariants of the executor -/

theorem postsProcessing_append {l1 l2 : List Event}
    (h1 : postsProcessing l1) (h2 : postsProcessing l2) :
    postsProcessing (l1 ++ l2) := fun c hc =>
  (List.mem_append.mp hc).elim (h1 c) (h2 c)

theorem setMaxBounded_append {l1 l2 : List Event}
    (h1 : setMaxBounded l1) (h2 : setMaxBounded l2) :
    setMaxBounded (l1 ++ l2) := fun v hv =>
  (List.mem_append.mp hv).elim (h1 v) (h2 v)

theorem updateProgress_events_decompose (perItem : ℚ) (cb : Option String)
    (s : RunState) (e : ℚ) (i : Option ℕ) :
    (updateProgress perItem cb s e i).events =
      s.events ++ (updateProgress perItem cb s e i).events.drop s.events.length := by
  conv_lhs => rw [← List.take_append_drop s.events.length
    (updateProgress perItem cb s e i).events]
  dsimp only [updateProgress]
  rw [List.take_left]

theorem updateProgress_new_setMax_le (perItem : ℚ) (cb : Option String)
    (s : RunState) (e : ℚ) (i : Option ℕ) :
    ∀ v, Event.setMax v ∈
        (updateProgress perItem cb s e i).events.drop s.events.length → v ≤ 95 := by
  intro v hv
  dsimp only [updateProgress] at hv
  rw [List.drop_left] at hv
  rcases List.mem_append.mp hv with h1 | h1
  · rcases List.mem_append.mp h1 with h2 | h2
    · split at h2
      · rcases List.mem_singleton.mp h2 with h3
        cases h3
        exact min_le_left _ _
      · cases h2
    · rcases List.mem_cons.mp h2 with h3 | h3
      · cases h3
      · rcases List.mem_singleton.mp h3 with h4
        cases h4
  · rcases hcb : cb with _ | u <;> rw [hcb] at h1
    · cases h1
    · rcases List.mem_singleton.mp h1 with h4
      cases h4

theorem postsProcessing_updateProgress (perItem : ℚ) (cb : Option String)
    (s : RunState) (e : ℚ) (i : Option ℕ)
    (h : postsProcessing s.events) :
    postsProcessing (updateProgress perItem cb s e i).events := by
  rw [updateProgress_events_decompose]
  refine postsProcessing_append h ?_
  intro c hc
  have h2 := updateProgress_new_events perItem cb s e i _ hc
  simpa [Event.isProgressReport] using h2

theorem setMaxBounded_updateProgress (perItem : ℚ) (cb : Option String)
    (s : RunState) (e : ℚ) (i : Option ℕ)
    (h : setMaxBounded s.events) :
    setMaxBounded (updateProgress perItem cb s e i).events := by
  rw [updateProgress_events_decompose]
  exact setMaxBounded_append h (updateProgress_new_setMax_le perItem cb s e i)

theorem updateProgress_inv (perItem : ℚ) (cb : Option String)
    (s : RunState) (e : ℚ) (i : Option ℕ)
    (h : postsProcessing s.events ∧ setMaxBounded s.events) :
    (postsProcessing (updateProgress perItem cb s e i).events ∧
      setMaxBounded (updateProgress perItem cb s e i).events) ∧
    getMaxProgress s.store ≤ getMaxProgress (updateProgress perItem cb s e i).store :=
  ⟨⟨postsProcessing_updateProgress perItem cb s e i h.1,
    setMaxBounded_updateProgress perItem cb s e i h.2⟩,
   updateProgress_store_mono perItem cb s e i⟩

theorem getMaxProgress_setMediaResult (id : String) (r : MediaResult) (st : Store) :
    getMaxProgress (setMediaResult id r st) = getMaxProgress st := rfl

theorem getMaxProgress_markMediaCompleted (id : String) (st : Store) :
    getMaxProgress (markMediaCompleted id st) = getMaxProgress st := by
  rw [markMediaCompleted]
  split <;> rfl

theorem bridge_fold_inv (perItem : ℚ) (cb : Option String) (i : ℕ) :
    ∀ (l : List ℚ) (s : RunState),
      (postsProcessing s.events ∧ setMaxBounded s.events) →
      (postsProcessing ((l.foldl (fun acc v =>
          updateProgress perItem cb acc (videoProgressAmount perItem v) (some i))
            s).events) ∧
        setMaxBounded ((l.foldl (fun acc v =>
          updateProgress perItem cb acc (videoProgressAmount perItem v) (some i))
            s).events)) ∧
      getMaxProgress s.store ≤
        getMaxProgress ((l.foldl (fun acc v =>
          updateProgress perItem cb acc (videoProgressAmount perItem v) (some i))
            s).store)
  | [], s, h => ⟨h, le_refl _⟩
  | v :: rest, s, h => by
    rw [List.foldl_cons]
    have hstep := updateProgress_inv perItem cb s (videoProgressAmount perItem v)
      (some i) h
    have hrec := bridge_fold_inv perItem cb i rest
      (updateProgress perItem cb s (videoProgressAmount perItem v) (some i)) hstep.1
    exact ⟨hrec.1, le_trans hstep.2 hrec.2⟩

theorem itemScratch_inv (postId : String) (m : MediaItem) (s : RunState)
    (h : postsProcessing s.events ∧ setMaxBounded s.events) :
    (postsProcessing (itemScratch postId m s).events ∧
      setMaxBounded (itemScratch postId m s).events) ∧
    getMaxProgress s.store ≤ getMaxProgress (itemScratch postId m s).store :=
  ⟨⟨postsProcessing_append h.1 (by intro c hc; simp at hc),
    setMaxBounded_append h.2 (by intro v hv; simp at hv)⟩,
   le_refl _⟩

theorem itemDownloaded_inv (postId : String) (s : RunState)
    (h : postsProcessing s.events ∧ setMaxBounded s.events) :
    (postsProcessing (itemDownloaded postId s).events ∧
      setMaxBounded (itemDownloaded postId s).events) ∧
    getMaxProgress s.store ≤ getMaxProgress (itemDownloaded postId s).store :=
  ⟨⟨postsProcessing_append h.1 (by intro c hc; simp at hc),
    setMaxBounded_append h.2 (by intro v hv; simp at hv)⟩,
   le_refl _⟩

theorem procMark_inv (i : ℕ) (s : RunState)
    (h : postsProcessing s.events ∧ setMaxBounded s.events) :
    (postsProcessing (procMark i s).events ∧
      setMaxBounded (procMark i s).events) ∧
    getMaxProgress s.store ≤ getMaxProgress (procMark i s).store :=
  ⟨⟨postsProcessing_append h.1 (by intro c hc; simp at hc),
    setMaxBounded_append h.2 (by intro v hv; simp at hv)⟩,
   le_refl _⟩

theorem itemRecord_inv (i : ℕ) (m : MediaItem) (res : Option MediaResult)
    (s : RunState)
    (h : postsProcessing s.events ∧ setMaxBounded s.events) :
    (postsProcessing (itemRecord i m res s).events ∧
      setMaxBounded (itemRecord i m res s).events) ∧
    getMaxProgress s.store ≤ getMaxProgress (itemRecord i m res s).store := by
  cases res with
  | none => exact ⟨h, le_refl _⟩
  | some r =>
    refine ⟨⟨postsProcessing_append h.1 (by intro c hc; simp at hc),
      setMaxBounded_append h.2 (by intro v hv; simp at hv)⟩, ?_⟩
    show getMaxProgress s.store ≤
      getMaxProgress (setMediaResult m.id r (markMediaCompleted m.id s.store))
    rw [getMaxProgress_setMediaResult, getMaxProgress_markMediaCompleted]

theorem processItem_inv (perItem : ℚ) (cb : Option String) (postId : String)
    (env : ExecEnv) (i : ℕ) (m : MediaItem) (s : RunState)
    (h : postsProcessing s.events ∧ setMaxBounded s.events) :
    (postsProcessing (processItem perItem cb postId env i m s).1.events ∧
      setMaxBounded (processItem perItem cb postId env i m s).1.events) ∧
    getMaxProgress s.store ≤
      getMaxProgress (processItem perItem cb postId env i m s).1.store := by
  rw [processItem]
  by_cases hc : m.id ∈ s.store.completed
  · rw [if_pos hc]
    exact updateProgress_inv perItem cb s 0 (some i) h
  · rw [if_neg hc]
    have h1 := updateProgress_inv perItem cb s 0 (some i) h
    have h2 := itemScratch_inv postId m _ h1.1
    have hup2 := le_trans h1.2 h2.2
    cases env.signedUrl i with
    | error e => exact ⟨h2.1, hup2⟩
    | ok u =>
      cases env.download i with
      | error e => exact ⟨h2.1, hup2⟩
      | ok v =>
        dsimp only
        have h3 := itemDownloaded_inv postId _ h2.1
        have h4 := updateProgress_inv perItem cb _ (perItem * (1/10)) (some i) h3.1
        have hup4 := le_trans hup2 (le_trans h3.2 h4.2)
        by_cases hv : m.type = "VIDEO"
        · rw [if_pos hv]
          have h5 := updateProgress_inv perItem cb _ 0 (some i) h4.1
          have h6 := procMark_inv i _ h5.1
          have h7 := bridge_fold_inv perItem cb i (env.bridge i) _ h6.1
          have hup7 := le_trans hup4 (le_trans h5.2 (le_trans h6.2 h7.2))
          cases env.process i with
          | error e => exact ⟨h7.1, hup7⟩
          | ok res =>
            have h8 := itemRecord_inv i m res _ h7.1
            have h9 := updateProgress_inv perItem cb _ (perItem * (2/10)) (some i) h8.1
            exact ⟨h9.1, le_trans hup7 (le_trans h8.2 h9.2)⟩
        · rw [if_neg hv]
          by_cases hi : m.type = "IMAGE"
          · rw [if_pos hi]
            have h5 := updateProgress_inv perItem cb _ 0 (some i) h4.1
            have h6 := procMark_inv i _ h5.1
            have hup6 := le_trans hup4 (le_trans h5.2 h6.2)
            cases env.process i with
            | error e => exact ⟨h6.1, hup6⟩
            | ok res =>
              have h8 := itemRecord_inv i m res _ h6.1
              have h9 := updateProgress_inv perItem cb _ (perItem * (9/10)) (some i) h8.1
              exact ⟨h9.1, le_trans hup6 (le_trans h8.2 h9.2)⟩
          · rw [if_neg hi]
            exact ⟨h4.1, hup4⟩

theorem processLoop_inv (perItem : ℚ) (cb : Option String) (postId : String)
    (env : ExecEnv) :
    ∀ (items : List (ℕ × MediaItem)) (s : RunState),
      (postsProcessing s.events ∧ setMaxBounded s.events) →
      (postsProcessing (processLoop perItem cb postId env items s).1.events ∧
        setMaxBounded (processLoop perItem cb postId env items s).1.events) ∧
      getMaxProgress s.store ≤
        getMaxProgress (processLoop perItem cb postId env items s).1.store
  | [], s, h => ⟨h, le_refl _⟩
  | (i, m) :: rest, s, h => by
    rw [processLoop]
    have hstep := processItem_inv perItem cb postId env i m s h
    rcases hpi : processItem perItem cb postId env i m s with ⟨s1, err⟩
    rw [hpi] at hstep
    cases err with
    | some e => exact hstep
    | none =>
      have hrec := processLoop_inv perItem cb postId env rest s1 hstep.1
      exact ⟨hrec.1, le_trans hstep.2 hrec.2⟩

theorem preLoopState_inv (job : Job) (st0 : Store) (fs0 : Fs) :
    (postsProcessing (preLoopState job st0 fs0).events ∧
      setMaxBounded (preLoopState job st0 fs0).events) ∧
    getMaxProgress st0 ≤ getMaxProgress (preLoopState job st0 fs0).store := by
  have hbase : postsProcessing (initState job st0 fs0).events ∧
      setMaxBounded (initState job st0 fs0).events := by
    constructor
    · intro c hc
      rw [show (initState job st0 fs0).events =
        [Event.fsMkdir downloadRoot, Event.fsMkdir outputRoot] from rfl] at hc
      simp at hc
    · intro v hv
      rw [show (initState job st0 fs0).events =
        [Event.fsMkdir downloadRoot, Event.fsMkdir outputRoot] from rfl] at hv
      simp at hv
  have h := updateProgress_inv (70 / (job.media.length : ℚ)) job.callbackUrl
    (initState job st0 fs0) 0 none hbase
  exact ⟨h.1, h.2⟩

/-- The event trace of the success-path finalisation starting from any
post-loop state s2 carries only processing POSTs (before the terminal
success POST itself is appended). -/
theorem successFinal_posts (J : Job) (s2 : RunState)
    (h : postsProcessing s2.events) :
    postsProcessing ((updateProgress (70 / (J.media.length : ℚ)) J.callbackUrl
      { (updateProgress (70 / (J.media.length : ℚ)) J.callbackUrl s2 0 none) with
        fs := fsRemoveTree ["downloads", J.postId] (fsRemoveTree ["output", J.postId]
          (updateProgress (70 / (J.media.length : ℚ)) J.callbackUrl s2 0 none).fs)
        events := (updateProgress (70 / (J.media.length : ℚ)) J.callbackUrl
          s2 0 none).events ++
          [Event.fsRm ["output", J.postId], Event.fsRm ["downloads", J.postId]] }
      5 none).events ++ [Event.setMax 100]) := by
  have h3 := postsProcessing_updateProgress (70 / (J.media.length : ℚ))
    J.callbackUrl s2 0 none h
  have h4 : postsProcessing
      ((updateProgress (70 / (J.media.length : ℚ)) J.callbackUrl s2 0 none).events ++
        [Event.fsRm ["output", J.postId], Event.fsRm ["downloads", J.postId]]) :=
    postsProcessing_append h3 (by intro c hc; simp at hc)
  have h5 := postsProcessing_updateProgress (70 / (J.media.length : ℚ)) J.callbackUrl
    { (updateProgress (70 / (J.media.length : ℚ)) J.callbackUrl s2 0 none) with
      fs := fsRemoveTree ["downloads", J.postId] (fsRemoveTree ["output", J.postId]
        (updateProgress (70 / (J.media.length : ℚ)) J.callbackUrl s2 0 none).fs)
      events := (updateProgress (70 / (J.media.length : ℚ)) J.callbackUrl
        s2 0 none).events ++
        [Event.fsRm ["output", J.postId], Event.fsRm ["downloads", J.postId]] }
    5 none h4
  exact postsProcessing_append h5 (by intro c hc; simp at hc)

/- ## C4: empty media array -/

/-- C4 counterexample: a job with an empty media array is not rejected - the
handler runs to completion, returns the success object with zero results,
writes a progress snapshot ("Starting media processing...") and finishes by
writing maxProgress = 100; no validation error is raised and state is
written. -/
theorem C4_empty_media_cex :
    (runJob c4Job idleEnv emptyStore []).2 =
      .ok { postId := "p1", mediaResults := [], totalProcessed := 0,
            status := "success" } ∧
    (runJob c4Job idleEnv emptyStore []).1.store.maxProgress = some 100 ∧
    Event.snapshotWrite 30 none ∈ (runJob c4Job idleEnv emptyStore []).1.events := by
  refine ⟨rfl, rfl, ?_⟩
  norm_num [runJob, preLoopState, initState, processLoop, updateProgress, upNewMp,
    calcProgress, getMaxProgress, setMaxProgress, seedResults, getAllMediaResults,
    resultMapGet, c4Job, idleEnv, emptyStore, fsInsert, fsRemoveTree, outputRoot,
    downloadRoot, jsRound]

/-- C4 (amended): the executor performs no validation of an empty media
array: the loop runs zero times, the attempt completes with the success
return object carrying zero results, progress-store state is written
(maxProgress ends at 100), and no terminal callback is POSTed (the success
POST requires a non-empty result list). -/
theorem C4_empty_media (job : Job) (env : ExecEnv) (st0 : Store) (fs0 : Fs)
    (hmed : job.media = []) :
    (runJob job env st0 fs0).2 =
      .ok { postId := job.postId, mediaResults := [], totalProcessed := 0,
            status := "success" } ∧
    (runJob job env st0 fs0).1.store.maxProgress = some 100 ∧
    (∀ c, Event.post c ∈ (runJob job env st0 fs0).1.events →
      c.isTerminal = false) := by
  obtain ⟨p, media, k, us, cb⟩ := job
  replace hmed : media = [] := hmed
  subst hmed
  have hpre := preLoopState_inv
    { postId := p, media := [], s3Key := k, userId := us, callbackUrl := cb } st0 fs0
  have hposts := successFinal_posts
    { postId := p, media := [], s3Key := k, userId := us, callbackUrl := cb }
    (preLoopState
      { postId := p, media := [], s3Key := k, userId := us, callbackUrl := cb }
      st0 fs0)
    hpre.1.1
  cases cb with
  | none =>
    refine ⟨rfl, rfl, ?_⟩
    intro c hc
    have hstat := hposts c hc
    simp [Callback.isTerminal, hstat]
  | some u =>
    refine ⟨rfl, rfl, ?_⟩
    intro c hc
    have hstat := hposts c hc
    simp [Callback.isTerminal, hstat]

/- ## C5: scratch cleanliness at terminal states -/

theorem failurePath_fs (cb : Option String) (postId : String) (s : RunState) :
    (failurePath cb postId s).fs =
      fsRemoveTree ["downloads", postId] (fsRemoveTree ["output", postId] s.fs) := by
  cases cb <;> rfl

theorem runJob_fs_shape (job : Job) (env : ExecEnv) (st0 : Store) (fs0 : Fs) :
    ∃ X, (runJob job env st0 fs0).1.fs =
      fsRemoveTree ["downloads", job.postId]
        (fsRemoveTree ["output", job.postId] X) := by
  dsimp only [runJob]
  rcases hloop : processLoop (70 / (job.media.length : ℚ)) job.callbackUrl
    job.postId env job.media.enum (preLoopState job st0 fs0) with ⟨s2, err⟩
  cases err with
  | some e => exact ⟨s2.fs, failurePath_fs job.callbackUrl job.postId s2⟩
  | none =>
    dsimp only
    cases hcb : job.callbackUrl with
    | none => exact ⟨s2.fs, rfl⟩
    | some u =>
      by_cases hval : (List.filterMap id
          ((updateProgress (70 / (job.media.length : ℚ)) (some u)
            { (updateProgress (70 / (job.media.length : ℚ)) (some u) s2 0 none) with
              fs := fsRemoveTree ["downloads", job.postId]
                (fsRemoveTree ["output", job.postId]
                  (updateProgress (70 / (job.media.length : ℚ)) (some u)
                    s2 0 none).fs)
              events := (updateProgress (70 / (job.media.length : ℚ)) (some u)
                s2 0 none).events ++
                [Event.fsRm ["output", job.postId],
                 Event.fsRm ["downloads", job.postId]] }
            5 none).results)).isEmpty = true
      · rw [if_pos hval]
        exact ⟨s2.fs, rfl⟩
      · rw [if_neg hval]
        cases hsp : env.successPost with
        | error e => exact ⟨_, failurePath_fs (some u) job.postId _⟩
        | ok v => exact ⟨s2.fs, rfl⟩

/-- C5 (amended): at any terminal state of an attempt (success, failure, or
success-callback failure) no path remains under the per-post scratch roots
`<output>/postId` and `<downloads>/postId`; the per-item output directories
under `<output>/postId` are therefore removed, but the per-item download
directories, created at `<downloads>/<mediaId>` outside the per-post roots,
are not covered (see the counterexample). -/
theorem C5_scratch_roots_clean (job : Job) (env : ExecEnv) (st0 : Store)
    (fs0 : Fs) (p : FsPath) (hp : p ∈ (runJob job env st0 fs0).1.fs) :
    (["output", job.postId] : FsPath).isPrefixOf p = false ∧
    (["downloads", job.postId] : FsPath).isPrefixOf p = false := by
  obtain ⟨X, hX⟩ := runJob_fs_shape job env st0 fs0
  rw [hX] at hp
  have h1 := List.mem_filter.mp hp
  have h2 := List.mem_filter.mp h1.1
  constructor
  · simpa using h2.2
  · simpa using h1.2

/-- C5 counterexample: the one-image job creates the per-item download
directory at `<downloads>/<mediaId>` (outside the per-post scratch roots);
after the attempt reaches its terminal success state that directory still
exists in the filesystem. -/
theorem C5_download_dir_remains_cex :
    Event.fsMkdir ["downloads", "m1"] ∈ (runJob c5Job c5Env emptyStore []).1.events ∧
    ["downloads", "m1"] ∈ (runJob c5Job c5Env emptyStore []).1.fs ∧
    (runJob c5Job c5Env emptyStore []).2 =
      .ok { postId := "p1", mediaResults := [imgResult], totalProcessed := 1,
            status := "success" } := by
  refine ⟨?_, ?_, ?_⟩ <;>
    norm_num +decide [runJob, preLoopState, initState, processLoop, processItem,
      itemScratch, itemDownloaded, procMark, bridgeFold, itemRecord,
      updateProgress, upNewMp, calcProgress, getMaxProgress, setMaxProgress,
      markMediaCompleted, setMediaResult, seedResults, getAllMediaResults,
      resultMapGet, c5Job, c5Env, idleEnv, emptyStore, imageItem, imgResult,
      fsInsert, fsRemoveTree, outputRoot, downloadRoot, jsRound, List.foldl,
      List.filterMap, List.filter, List.isPrefixOf]

theorem C5_scratch_roots_clean_witness :
    (["output", "p1"] : FsPath).isPrefixOf [["other"]].head! = false ∧
    (["downloads", "p1"] : FsPath).isPrefixOf [["other"]].head! = false :=
  C5_scratch_roots_clean c4Job idleEnv emptyStore [["other"]] ["other"]
    (by norm_num +decide [runJob, preLoopState, initState, processLoop,
      updateProgress, upNewMp, calcProgress, getMaxProgress, setMaxProgress,
      seedResults, getAllMediaResults, resultMapGet, c4Job, idleEnv, emptyStore,
      fsInsert, fsRemoveTree, outputRoot, downloadRoot, jsRound,
      List.isPrefixOf])

theorem C4_empty_media_witness :
    (runJob c4Job idleEnv c2Store [["keep"]]).2 =
      .ok { postId := "p1", mediaResults := [], totalProcessed := 0,
            status := "success" } ∧
    (runJob c4Job idleEnv c2Store [["keep"]]).1.store.maxProgress = some 100 ∧
    (∀ c, Event.post c ∈ (runJob c4Job idleEnv c2Store [["keep"]]).1.events →
      c.isTerminal = false) :=
  C4_empty_media c4Job idleEnv c2Store [["keep"]] rfl

/- ## C6: terminal failure callback -/

theorem no_terminal_of_postsProcessing {l : List Event}
    (h : postsProcessing l) :
    l.filter Event.isTerminalPost = [] := by
  rw [List.filter_eq_nil_iff]
  intro ev hev
  cases ev with
  | post c =>
    have hst := h c hev
    simp [Event.isTerminalPost, Callback.isTerminal, hst]
  | jobProgress a b => simp [Event.isTerminalPost]
  | snapshotWrite a b => simp [Event.isTerminalPost]
  | setMax v => simp [Event.isTerminalPost]
  | completedMark i => simp [Event.isTerminalPost]
  | resultWrite i => simp [Event.isTerminalPost]
  | fsRm p => simp [Event.isTerminalPost]
  | fsMkdir p => simp [Event.isTerminalPost]
  | fileDownload p => simp [Event.isTerminalPost]
  | procInvoke i => simp [Event.isTerminalPost]

/-- C6: when the loop raises and a callback URL is present, the attempt ends
with the re-raised error; the catch block appends exactly the failed progress
report, the failed snapshot at the unchanged rounded max, the two scratch
purges, and one failure POST whose progress equals the stored max (rounded);
it writes nothing to `maxProgress` (never 100, never lower), the whole trace
carries exactly one terminal POST, every `maxProgress` write in the trace is
at most 95, and the stored max never drops below its initial value. -/
theorem C6_failure_terminal_callback (job : Job) (env : ExecEnv) (st0 : Store)
    (fs0 : Fs) (u : String) (s2 : RunState) (e : String)
    (hcb : job.callbackUrl = some u)
    (hloop : processLoop (70 / (job.media.length : ℚ)) job.callbackUrl
      job.postId env job.media.enum (preLoopState job st0 fs0) = (s2, some e)) :
    (runJob job env st0 fs0).2 = .error e ∧
    (runJob job env st0 fs0).1.events = s2.events ++
      [Event.jobProgress (jsRound (getMaxProgress s2.store)) (some "failed"),
       Event.snapshotWrite (jsRound (getMaxProgress s2.store)) (some "failed"),
       Event.fsRm ["output", job.postId], Event.fsRm ["downloads", job.postId],
       Event.post { status := "failed",
                    progress := jsRound (getMaxProgress s2.store) }] ∧
    (runJob job env st0 fs0).1.store.maxProgress = s2.store.maxProgress ∧
    ((runJob job env st0 fs0).1.events.filter Event.isTerminalPost).length = 1 ∧
    (∀ v, Event.setMax v ∈ (runJob job env st0 fs0).1.events → v ≤ 95) ∧
    getMaxProgress st0 ≤ getMaxProgress (runJob job env st0 fs0).1.store := by
  have hrun : runJob job env st0 fs0 =
      (failurePath job.callbackUrl job.postId s2, .error e) := by
    dsimp only [runJob]
    rw [hloop]
  have hinv := processLoop_inv (70 / (job.media.length : ℚ)) job.callbackUrl
    job.postId env job.media.enum (preLoopState job st0 fs0)
    (preLoopState_inv job st0 fs0).1
  rw [hloop] at hinv
  have hev : (failurePath job.callbackUrl job.postId s2).events = s2.events ++
      [Event.jobProgress (jsRound (getMaxProgress s2.store)) (some "failed"),
       Event.snapshotWrite (jsRound (getMaxProgress s2.store)) (some "failed"),
       Event.fsRm ["output", job.postId], Event.fsRm ["downloads", job.postId],
       Event.post { status := "failed",
                    progress := jsRound (getMaxProgress s2.store) }] := by
    rw [hcb]
    dsimp only [failurePath]
    simp only [List.append_assoc]
    rfl
  refine ⟨by rw [hrun], by rw [hrun]; exact hev, by rw [hrun, hcb]; rfl, ?_, ?_, ?_⟩
  · rw [hrun]
    dsimp only
    rw [hev, List.filter_append, no_terminal_of_postsProcessing hinv.1.1]
    rfl
  · intro v hv
    rw [hrun] at hv
    dsimp only at hv
    rw [hev] at hv
    rcases List.mem_append.mp hv with h1 | h1
    · exact hinv.1.2 v h1
    · simp at h1
  · rw [hrun]
    dsimp only
    refine le_trans (le_trans (preLoopState_inv job st0 fs0).2 hinv.2) ?_
    rw [hcb]
    exact le_of_eq rfl

theorem C6_failure_terminal_callback_witness :
    (runJob c6Job c6Env emptyStore []).2 = .error "boom" ∧
    (runJob c6Job c6Env emptyStore []).1.events =
      (processLoop (70 / (c6Job.media.length : ℚ)) c6Job.callbackUrl
        c6Job.postId c6Env c6Job.media.enum
        (preLoopState c6Job emptyStore [])).1.events ++
      [Event.jobProgress (jsRound (getMaxProgress
          (processLoop (70 / (c6Job.media.length : ℚ)) c6Job.callbackUrl
            c6Job.postId c6Env c6Job.media.enum
            (preLoopState c6Job emptyStore [])).1.store)) (some "failed"),
       Event.snapshotWrite (jsRound (getMaxProgress
          (processLoop (70 / (c6Job.media.length : ℚ)) c6Job.callbackUrl
            c6Job.postId c6Env c6Job.media.enum
            (preLoopState c6Job emptyStore [])).1.store)) (some "failed"),
       Event.fsRm ["output", c6Job.postId], Event.fsRm ["downloads", c6Job.postId],
       Event.post { status := "failed",
                    progress := jsRound (getMaxProgress
                      (processLoop (70 / (c6Job.media.length : ℚ))
                        c6Job.callbackUrl c6Job.postId c6Env c6Job.media.enum
                        (preLoopState c6Job emptyStore [])).1.store) }] ∧
    (runJob c6Job c6Env emptyStore []).1.store.maxProgress =
      (processLoop (70 / (c6Job.media.length : ℚ)) c6Job.callbackUrl
        c6Job.postId c6Env c6Job.media.enum
        (preLoopState c6Job emptyStore [])).1.store.maxProgress ∧
    ((runJob c6Job c6Env emptyStore []).1.events.filter
      Event.isTerminalPost).length = 1 ∧
    (∀ v, Event.setMax v ∈ (runJob c6Job c6Env emptyStore []).1.events →
      v ≤ 95) ∧
    getMaxProgress emptyStore ≤
      getMaxProgress (runJob c6Job c6Env emptyStore []).1.store := by
  have h2 : (processLoop (70 / (c6Job.media.length : ℚ)) c6Job.callbackUrl
      c6Job.postId c6Env c6Job.media.enum
      (preLoopState c6Job emptyStore [])).2 = some "boom" := by
    norm_num +decide [processLoop, processItem, preLoopState, initState,
      itemScratch, itemDownloaded, procMark, bridgeFold, itemRecord,
      updateProgress, upNewMp, calcProgress, getMaxProgress, setMaxProgress,
      seedResults, getAllMediaResults, resultMapGet, c6Job, c6Env, idleEnv,
      emptyStore, imageItem, fsInsert, fsRemoveTree, outputRoot, downloadRoot,
      jsRound, List.foldl, List.filterMap, List.filter, List.isPrefixOf]
  exact C6_failure_terminal_callback c6Job c6Env emptyStore [] "https://cb" _
    "boom" rfl (by rw [← h2])

end CreatorWorker
